import Mathlib

/-!
Verification of the MedianLivingIndex dashboard's ranking and
color-classification engine, as implemented in `src/unnamed/part_002`
(the enhanced `MLIApp`) and `src/website/app.js`.

Numeric metric values (MLI ratios, incomes, costs of living, surpluses)
are modelled as rationals.  JavaScript objects keyed by state name are
modelled as lists of entries; `Object.entries` enumeration order is the
list order.  `Array.prototype.sort` (stable since ES2019) with comparator
`(a, b) => b.mli - a.mli` is modelled by `List.insertionSort` with the
relation `b.mli ≤ a.mli`: both are stable sorts into descending `mli`
order with respect to a total preorder, and a stable sort for a total
preorder is unique, so the two agree elementwise.
-/

namespace MLI

/-- One state's row for the selected year, as assembled by
`getStateRanking` / `updateStatsBanner` / `updateInsights`:
the state name together with its MLI value for the current year. -/
structure Entry where
  name : String
  mli : ℚ
deriving DecidableEq, Repr

/-! ### Fixed MLI buckets (`getMLIColor`)

The six colors returned by `getMLIColor` in `src/unnamed/part_002`
lines 435-443 (identically `src/website/app.js` lines 270-278); the
spec's bucket names for them, in order from worst to best. -/

def deepDeficit : String := "#dc2626"

def deficit : String := "#f97316"

def nearBreakEven : String := "#eab308"

def smallSurplus : String := "#84cc16"

def goodSurplus : String := "#22c55e"

def largeSurplus : String := "#059669"

/-- `getMLIColor` (src/unnamed/part_002 lines 435-443; src/website/app.js
lines 270-278): fixed, data-independent thresholds. -/
def getMLIColor (mli : ℚ) : String :=
  if mli < 0.9 then "#dc2626"
  else if mli < 0.95 then "#f97316"
  else if mli < 1.0 then "#eab308"
  else if mli < 1.1 then "#84cc16"
  else if mli < 1.2 then "#22c55e"
  else "#059669"

/-! ### Ranking (`getStateRanking`) -/

/-- The comparator relation underlying
`statesData.sort((a, b) => b.mli - a.mli)`:
`a` may come before `b` exactly when `b.mli ≤ a.mli`. -/
def mliGE (a b : Entry) : Prop := b.mli ≤ a.mli

instance : DecidableRel mliGE := fun a b => inferInstanceAs (Decidable (b.mli ≤ a.mli))

instance : IsTotal Entry mliGE := ⟨fun a b => le_total b.mli a.mli⟩

instance : IsTrans Entry mliGE := ⟨fun _ _ _ hab hbc => le_trans hbc hab⟩

/-- `statesData.sort((a, b) => b.mli - a.mli)` in `getStateRanking` and
`updateInsights` (and `sortStates` for the `mli`/`rank` keys in the
default descending direction): stable sort into descending MLI order. -/
def sortByMli (states : List Entry) : List Entry :=
  List.insertionSort mliGE states

/-- JavaScript `Array.prototype.findIndex`: the index of the first element
satisfying the predicate, `-1` when there is none. -/
def jsFindIndex {α : Type} (l : List α) (p : α → Bool) : Int :=
  match l.findIdx? p with
  | some i => (i : Int)
  | none => -1

/-- `getStateRanking` (src/unnamed/part_002 lines 657-665;
src/website/app.js lines 453-461): sort all states by MLI descending and
return `findIndex(s => s.name === stateName) + 1`. -/
def getStateRanking (states : List Entry) (stateName : String) : Int :=
  jsFindIndex (sortByMli states) (fun s => s.name == stateName) + 1

/-! ### C1 -/

/-- C1: for every numeric MLI value `v`, `getMLIColor` assigns exactly the
fixed, data-independent bucket given by the thresholds: `v < 0.90` maps to
`deepDeficit`, `0.90 ≤ v < 0.95` to `deficit`, `0.95 ≤ v < 1.00` to
`nearBreakEven`, `1.00 ≤ v < 1.10` to `smallSurplus`, `1.10 ≤ v < 1.20`
to `goodSurplus`, and `v ≥ 1.20` to `largeSurplus`; in particular
`getMLIColor 0.94 = deficit` and `getMLIColor 1.15 = goodSurplus`. -/
theorem getMLIColor_fixed_buckets (v : ℚ) :
    (v < 0.9 → getMLIColor v = deepDeficit) ∧
    (0.9 ≤ v → v < 0.95 → getMLIColor v = deficit) ∧
    (0.95 ≤ v → v < 1 → getMLIColor v = nearBreakEven) ∧
    (1 ≤ v → v < 1.1 → getMLIColor v = smallSurplus) ∧
    (1.1 ≤ v → v < 1.2 → getMLIColor v = goodSurplus) ∧
    (1.2 ≤ v → getMLIColor v = largeSurplus) ∧
    getMLIColor 0.94 = deficit ∧ getMLIColor 1.15 = goodSurplus := by
  refine ⟨?_, ?_, ?_, ?_, ?_, ?_, ?_, ?_⟩ <;>
    first
      | (intro h₁ h₂
         simp only [getMLIColor, deepDeficit, deficit, nearBreakEven, smallSurplus,
           goodSurplus, largeSurplus]
         split_ifs <;> first | rfl | linarith)
      | (intro h₁
         simp only [getMLIColor, deepDeficit, deficit, nearBreakEven, smallSurplus,
           goodSurplus, largeSurplus]
         split_ifs <;> first | rfl | linarith)
      | (simp only [getMLIColor, deepDeficit, deficit, nearBreakEven, smallSurplus,
           goodSurplus, largeSurplus]
         norm_num)

/-- Witness for C1: the theorem applied at the concrete input `0.92`,
every hypothesis discharged there. -/
theorem getMLIColor_fixed_buckets_witness : getMLIColor 0.92 = deficit :=
  (getMLIColor_fixed_buckets 0.92).2.1 (by norm_num) (by norm_num)

/-! ### C2 -/

/-- In a list of entries whose names are pairwise distinct, searching for
the name of the `i`-th entry finds exactly index `i`. -/
theorem findIdx_name_of_nodup (l : List Entry) (h : (l.map Entry.name).Nodup)
    (i : ℕ) (hi : i < l.length) :
    l.findIdx? (fun s => s.name == l[i].name) = some i := by
  rw [List.findIdx?_eq_some_iff_getElem]
  refine ⟨hi, by simp, ?_⟩
  intro j hj
  have hj2 : j < l.length := hj.trans hi
  have hne : l[j].name ≠ l[i].name := by
    intro hEq
    have hld : l.Nodup := h.of_map
    have hji : l[j] = l[i] :=
      List.inj_on_of_nodup_map h (List.getElem_mem hj2) (List.getElem_mem hi) hEq
    have : j = i := (hld.getElem_inj_iff).mp hji
    omega
  simp only [beq_iff_eq, Bool.not_eq_true, decide_eq_false_iff_not]
  exact hne

/-- The example dataset of the spec's ranking scenario. -/
def scenarioStates : List Entry := [⟨"A", 1.2⟩, ⟨"B", 0.8⟩, ⟨"C", 1.0⟩]

/-- C2: for every dataset whose `N` states all have an MLI value for the
selected year (entries with pairwise-distinct names), `getStateRanking`
assigns each state a rank forming a permutation of `1..N`, with rank 1
going to a state whose MLI is maximal; and on the scenario dataset
`{A: 1.2, B: 0.8, C: 1.0}` the ranking is `[(A,1),(C,2),(B,3)]`. -/
theorem getStateRanking_perm_of_nodup (states : List Entry)
    (h : (states.map Entry.name).Nodup) :
    ((List.map (fun e => getStateRanking states e.name) states).Perm
      (List.map (fun i => Int.ofNat i + 1) (List.range states.length))) ∧
    (∀ e ∈ states, getStateRanking states e.name = 1 →
      ∀ e' ∈ states, e'.mli ≤ e.mli) ∧
    getStateRanking scenarioStates "A" = 1 ∧
    getStateRanking scenarioStates "C" = 2 ∧
    getStateRanking scenarioStates "B" = 3 := by
  have hperm : (sortByMli states).Perm states := List.perm_insertionSort mliGE states
  have hnames : ((sortByMli states).map Entry.name).Nodup :=
    ((hperm.map Entry.name).nodup_iff).mpr h
  refine ⟨?_, ?_, ?_, ?_, ?_⟩
  case refine_3 =>
    norm_num [getStateRanking, jsFindIndex, sortByMli, scenarioStates,
      List.insertionSort, List.orderedInsert, mliGE, List.findIdx?_cons]
  case refine_4 =>
    norm_num [getStateRanking, jsFindIndex, sortByMli, scenarioStates,
      List.insertionSort, List.orderedInsert, mliGE, List.findIdx?_cons]
    decide
  case refine_5 =>
    norm_num [getStateRanking, jsFindIndex, sortByMli, scenarioStates,
      List.insertionSort, List.orderedInsert, mliGE, List.findIdx?_cons]
    decide
  · have hlen : (sortByMli states).length = states.length := hperm.length_eq
    have hmap : (List.map (fun e => getStateRanking states e.name) (sortByMli states))
        = List.map (fun i => Int.ofNat i + 1) (List.range states.length) := by
      apply List.ext_getElem
      · simp only [List.length_map, List.length_range, hlen]
      · intro i h1 h2
        have hi : i < (sortByMli states).length := by
          simpa only [List.length_map] using h1
        rw [List.getElem_map, List.getElem_map, List.getElem_range]
        unfold getStateRanking jsFindIndex
        rw [findIdx_name_of_nodup (sortByMli states) hnames i hi]
        rfl
    exact hmap ▸ (hperm.map _).symm
  · intro e he hrank e' he'
    have hsorted : (sortByMli states).Sorted mliGE := List.sorted_insertionSort mliGE states
    unfold getStateRanking jsFindIndex at hrank
    cases hfind : (sortByMli states).findIdx? (fun s => s.name == e.name) with
    | none =>
      rw [hfind] at hrank
      have h0 : (-1 : ℤ) + 1 = 1 := hrank
      omega
    | some i =>
      rw [hfind] at hrank
      have hrank' : (i : ℤ) + 1 = 1 := hrank
      have hi0 : i = 0 := by omega
      subst hi0
      obtain ⟨hlt, hp, -⟩ := List.findIdx?_eq_some_iff_getElem.mp hfind
      have hname : (sortByMli states)[0].name = e.name := by
        simpa using hp
      have h0mem : (sortByMli states)[0] ∈ states :=
        hperm.mem_iff.mp (List.getElem_mem hlt)
      have he0 : (sortByMli states)[0] = e :=
        List.inj_on_of_nodup_map h h0mem he hname
      have he's : e' ∈ sortByMli states := hperm.mem_iff.mpr he'
      obtain ⟨j, hj, hj'⟩ := List.mem_iff_getElem.mp he's
      rcases Nat.eq_zero_or_pos j with h0 | hpos
      · subst h0
        rw [← hj', he0]
      · have hrel := hsorted.rel_get_of_lt (a := ⟨0, hlt⟩) (b := ⟨j, hj⟩)
          (by simpa using hpos)
        simp only [List.get_eq_getElem] at hrel
        unfold mliGE at hrel
        rw [he0, hj'] at hrel
        exact hrel

/-- Witness for C2: the theorem applied to the concrete scenario dataset,
with the distinct-names hypothesis discharged there. -/
theorem getStateRanking_perm_of_nodup_witness :
    getStateRanking scenarioStates "A" = 1 :=
  (getStateRanking_perm_of_nodup scenarioStates (by decide)).2.2.1

/-! ### C3 -/

/-- Counterexample to C3: the comparator `(a, b) => b.mli - a.mli` has no
secondary key, so on the dataset `[("B", 1), ("A", 1)]` the stable sort
leaves the tied states in insertion order — `B` first, rank 1, and `A`
second, rank 2 — not in state-name-ascending order (`A` before `B`). -/
theorem sortByMli_tie_not_name_ascending :
    sortByMli [⟨"B", 1⟩, ⟨"A", 1⟩] = [⟨"B", 1⟩, ⟨"A", 1⟩] ∧
    getStateRanking [⟨"B", 1⟩, ⟨"A", 1⟩] "B" = 1 ∧
    getStateRanking [⟨"B", 1⟩, ⟨"A", 1⟩] "A" = 2 := by
  refine ⟨?_, ?_, ?_⟩ <;>
    (norm_num [getStateRanking, jsFindIndex, sortByMli,
       List.insertionSort, List.orderedInsert, mliGE, List.findIdx?_cons]
     try decide)

/-- Stability of `orderedInsert` for the descending-MLI relation: inserting
`a` keeps the subsequence of any fixed MLI value `c` intact, with `a` put in
front of its own value class. -/
theorem filter_orderedInsert_mli (a : Entry) (c : ℚ) (l : List Entry) :
    (List.orderedInsert mliGE a l).filter (fun e => decide (e.mli = c)) =
      if a.mli = c then a :: l.filter (fun e => decide (e.mli = c))
      else l.filter (fun e => decide (e.mli = c)) := by
  induction l with
  | nil => by_cases ha : a.mli = c <;> simp [List.orderedInsert, ha]
  | cons b l ih =>
    by_cases hr : mliGE a b
    · by_cases ha : a.mli = c <;>
        simp [List.orderedInsert, hr, ha, List.filter_cons]
    · have hab : a.mli < b.mli := by
        unfold mliGE at hr
        exact lt_of_not_le hr
      by_cases ha : a.mli = c
      · have hb : ¬ b.mli = c := by
          intro hb
          rw [ha, hb] at hab
          exact lt_irrefl c hab
        simp [List.orderedInsert, hr, List.filter_cons, ha, hb, ih]
      · simp [List.orderedInsert, hr, List.filter_cons, ha, ih]

/-- Tie classes of `sortByMli` appear in input order (stability). -/
theorem filter_sortByMli (states : List Entry) (c : ℚ) :
    (sortByMli states).filter (fun e => decide (e.mli = c)) =
      states.filter (fun e => decide (e.mli = c)) := by
  induction states with
  | nil => rfl
  | cons a l ih =>
    show (List.orderedInsert mliGE a (List.insertionSort mliGE l)).filter _ = _
    rw [filter_orderedInsert_mli]
    have ih' : (List.insertionSort mliGE l).filter (fun e => decide (e.mli = c)) =
        l.filter (fun e => decide (e.mli = c)) := ih
    by_cases ha : a.mli = c <;> simp [ha, List.filter_cons, ih']

/-- C3 amended: the ranking orders states by MLI descending, as a
permutation of the dataset, and whenever two states have equal MLI values
their relative order is the dataset's own (insertion) order — the sort is
stable with no secondary key — so the ordering is a deterministic function
of the dataset including its stored order, not of state names. -/
theorem sortByMli_sorted_stable (states : List Entry) :
    (sortByMli states).Sorted mliGE ∧
    (sortByMli states).Perm states ∧
    (∀ c : ℚ, (sortByMli states).filter (fun e => decide (e.mli = c)) =
      states.filter (fun e => decide (e.mli = c))) :=
  ⟨List.sorted_insertionSort mliGE states,
   List.perm_insertionSort mliGE states,
   fun c => filter_sortByMli states c⟩

/-! ### C4 -/

/-- Counterexample to C4: looking up a state that is absent from the
dataset does not fail with a NotFound error — `findIndex` returns `-1` and
`getStateRanking` returns the ordinary value `0`. -/
theorem getStateRanking_absent_returns_zero :
    getStateRanking [⟨"Texas", 1⟩] "Utah" = 0 := by
  norm_num [getStateRanking, jsFindIndex, sortByMli,
    List.insertionSort, List.orderedInsert, List.findIdx?_cons]
  decide

/-- C4 amended: for a dataset with `N` states, `getStateRanking` returns an
integer in `[1, N]` when the queried state name is present, and returns the
sentinel value `0` (from JavaScript `findIndex`'s `-1`, plus one) — not a
NotFound error — when the name is absent. -/
theorem getStateRanking_bounds (states : List Entry) (stateName : String) :
    (stateName ∈ states.map Entry.name →
      1 ≤ getStateRanking states stateName ∧
        getStateRanking states stateName ≤ (states.length : ℤ)) ∧
    (stateName ∉ states.map Entry.name →
      getStateRanking states stateName = 0) := by
  have hperm : (sortByMli states).Perm states := List.perm_insertionSort mliGE states
  have hlen : (sortByMli states).length = states.length := hperm.length_eq
  constructor
  · intro hmem
    obtain ⟨e, he, hename⟩ := List.mem_map.mp hmem
    have he' : e ∈ sortByMli states := hperm.mem_iff.mpr he
    have hex : ∃ x, x ∈ sortByMli states ∧ (x.name == stateName) = true :=
      ⟨e, he', by simp [hename]⟩
    have hfind := List.findIdx?_eq_some_of_exists hex
    have hlt : (sortByMli states).findIdx (fun s => s.name == stateName) <
        (sortByMli states).length :=
      List.findIdx_lt_length_of_exists hex
    unfold getStateRanking jsFindIndex
    rw [hfind]
    have h2 : (sortByMli states).findIdx (fun s => s.name == stateName) <
        states.length := hlen ▸ hlt
    constructor
    · show (1 : ℤ) ≤
        ((sortByMli states).findIdx (fun s => s.name == stateName) : ℤ) + 1
      omega
    · show ((sortByMli states).findIdx (fun s => s.name == stateName) : ℤ) + 1 ≤
        (states.length : ℤ)
      omega
  · intro hmem
    have hfind : (sortByMli states).findIdx? (fun s => s.name == stateName) = none := by
      rw [List.findIdx?_eq_none_iff]
      intro x hx
      have hxs : x ∈ states := hperm.mem_iff.mp hx
      have : x.name ≠ stateName := by
        intro hEq
        exact hmem (List.mem_map.mpr ⟨x, hxs, hEq⟩)
      simpa using this
    unfold getStateRanking jsFindIndex
    rw [hfind]
    decide

/-- Witness for C4's amended theorem: applied to a concrete one-state
dataset, both the present-name and the absent-name hypotheses discharged. -/
theorem getStateRanking_bounds_witness :
    (1 ≤ getStateRanking [⟨"Texas", 1⟩] "Texas" ∧
      getStateRanking [⟨"Texas", 1⟩] "Texas" ≤ ((1 : ℕ) : ℤ)) ∧
    getStateRanking [⟨"Texas", 1⟩] "Ohio" = 0 :=
  ⟨(getStateRanking_bounds [⟨"Texas", 1⟩] "Texas").1 (by decide),
   (getStateRanking_bounds [⟨"Texas", 1⟩] "Ohio").2 (by decide)⟩

/-! ### C5

The three call sites computing the 5-year MLI delta, modelled over a
total timeseries `ts : ℤ → ℚ` (the dataset invariant — every state has an
entry for every year in `years` — makes the source's defensive
`if (fiveYearData)` check pass whenever the indexed year is in `years`,
and the value read for `currentYear` defined). -/

/-- The 5-year-change computation in `updateRankingsTable`
(src/unnamed/part_002 lines 834-843): `change5yr` starts at `0`; only when
`fiveYearIndex >= 0` is it replaced by `mli(currentYear) −
mli(availableYears[fiveYearIndex])`.  On underflow it stays `0`. -/
def change5yrRankings (years : List ℤ) (ts : ℤ → ℚ) (currentYear : ℤ) : ℚ :=
  let fiveYearIndex : Int := jsFindIndex years (fun y => y == currentYear) - 5
  if 0 ≤ fiveYearIndex then
    match years[fiveYearIndex.toNat]? with
    | some fiveYearsAgo => ts currentYear - ts fiveYearsAgo
    | none => 0
  else 0

/-- The 5-year-change computation in `updateInsights` (src/unnamed/part_002
lines 952-968): same lookback, but on underflow it falls back to the first
available year: `mli(currentYear) − mli(availableYears[0])`. -/
def change5yrInsights (years : List ℤ) (ts : ℤ → ℚ) (currentYear : ℤ) : ℚ :=
  let fiveYearIndex : Int := jsFindIndex years (fun y => y == currentYear) - 5
  if 0 ≤ fiveYearIndex then
    match years[fiveYearIndex.toNat]? with
    | some fiveYearsAgo => ts currentYear - ts fiveYearsAgo
    | none => 0
  else
    match years[0]? with
    | some firstYear => ts currentYear - ts firstYear
    | none => 0

/-- The 5-year-change computation in `createTrendInsight`
(src/unnamed/part_002 lines 742-793): same lookback; on underflow it falls
back to the full range, `mli(lastYear) − mli(firstYear)`. -/
def trendInsightChange (years : List ℤ) (ts : ℤ → ℚ) (currentYear : ℤ) : ℚ :=
  let fiveYearIndex : Int := jsFindIndex years (fun y => y == currentYear) - 5
  if 0 ≤ fiveYearIndex then
    match years[fiveYearIndex.toNat]? with
    | some fiveYearsAgo => ts currentYear - ts fiveYearsAgo
    | none => 0
  else
    match years[0]?, years[years.length - 1]? with
    | some firstYear, some lastYear => ts lastYear - ts firstYear
    | _, _ => 0

/-- Unfolding equation for `change5yrRankings`. -/
theorem change5yrRankings_eq (years : List ℤ) (ts : ℤ → ℚ) (currentYear : ℤ) :
    change5yrRankings years ts currentYear =
      if 0 ≤ jsFindIndex years (fun y => y == currentYear) - 5 then
        match years[(jsFindIndex years (fun y => y == currentYear) - 5).toNat]? with
        | some fiveYearsAgo => ts currentYear - ts fiveYearsAgo
        | none => 0
      else 0 := rfl

/-- Unfolding equation for `change5yrInsights`. -/
theorem change5yrInsights_eq (years : List ℤ) (ts : ℤ → ℚ) (currentYear : ℤ) :
    change5yrInsights years ts currentYear =
      if 0 ≤ jsFindIndex years (fun y => y == currentYear) - 5 then
        match years[(jsFindIndex years (fun y => y == currentYear) - 5).toNat]? with
        | some fiveYearsAgo => ts currentYear - ts fiveYearsAgo
        | none => 0
      else
        match years[0]? with
        | some firstYear => ts currentYear - ts firstYear
        | none => 0 := rfl

/-- Unfolding equation for `trendInsightChange`. -/
theorem trendInsightChange_eq (years : List ℤ) (ts : ℤ → ℚ) (currentYear : ℤ) :
    trendInsightChange years ts currentYear =
      if 0 ≤ jsFindIndex years (fun y => y == currentYear) - 5 then
        match years[(jsFindIndex years (fun y => y == currentYear) - 5).toNat]? with
        | some fiveYearsAgo => ts currentYear - ts fiveYearsAgo
        | none => 0
      else
        match years[0]?, years[years.length - 1]? with
        | some firstYear, some lastYear => ts lastYear - ts firstYear
        | _, _ => 0 := rfl

/-- Counterexample to C5: with `years = [2020, 2021]` and the current year
`2021`, the 5-year lookback underflows; `updateInsights` and
`createTrendInsight` fall back to the earliest year (delta `1` here), but
`updateRankingsTable` substitutes the constant `0` instead of falling back. -/
theorem change5yrRankings_underflow_constant_zero :
    change5yrRankings [2020, 2021] (fun y => if y = 2021 then 2 else 1) 2021 = 0 ∧
    change5yrInsights [2020, 2021] (fun y => if y = 2021 then 2 else 1) 2021 = 1 ∧
    trendInsightChange [2020, 2021] (fun y => if y = 2021 then 2 else 1) 2021 = 1 := by
  refine ⟨?_, ?_, ?_⟩ <;>
    norm_num [change5yrRankings_eq, change5yrInsights_eq, trendInsightChange_eq,
      jsFindIndex, List.findIdx?_cons]

/-- C5 amended: every computed delta equals `value(toYear) − value(fromYear)`
for its chosen pair of years; when the 5-year lookback underflows,
`updateInsights` falls back to the earliest available year and
`createTrendInsight` to the full first-to-last range, but
`updateRankingsTable` substitutes the constant `0`. -/
theorem deltaComputations_lookback (years : List ℤ) (ts : ℤ → ℚ)
    (currentYear : ℤ) (i : ℕ)
    (hfind : years.findIdx? (fun y => y == currentYear) = some i) :
    (∀ past, 5 ≤ i → years[i - 5]? = some past →
      change5yrRankings years ts currentYear = ts currentYear - ts past ∧
      change5yrInsights years ts currentYear = ts currentYear - ts past ∧
      trendInsightChange years ts currentYear = ts currentYear - ts past) ∧
    (∀ firstYear lastYear, i < 5 → years[0]? = some firstYear →
      years[years.length - 1]? = some lastYear →
      change5yrRankings years ts currentYear = 0 ∧
      change5yrInsights years ts currentYear = ts currentYear - ts firstYear ∧
      trendInsightChange years ts currentYear = ts lastYear - ts firstYear) := by
  have hidx : jsFindIndex years (fun y => y == currentYear) = (i : ℤ) := by
    unfold jsFindIndex
    rw [hfind]
  constructor
  · intro past h5 hget
    have hge : (0 : ℤ) ≤ (i : ℤ) - 5 := by omega
    have htn : ((i : ℤ) - 5).toNat = i - 5 := by omega
    refine ⟨?_, ?_, ?_⟩
    · rw [change5yrRankings_eq, hidx, if_pos hge, htn, hget]
    · rw [change5yrInsights_eq, hidx, if_pos hge, htn, hget]
    · rw [trendInsightChange_eq, hidx, if_pos hge, htn, hget]
  · intro firstYear lastYear hlt hget0 hgetLast
    have hneg : ¬ (0 : ℤ) ≤ (i : ℤ) - 5 := by omega
    refine ⟨?_, ?_, ?_⟩
    · rw [change5yrRankings_eq, hidx, if_neg hneg]
    · rw [change5yrInsights_eq, hidx, if_neg hneg, hget0]
    · rw [trendInsightChange_eq, hidx, if_neg hneg, hget0, hgetLast]

/-- Witness for C5's amended theorem: applied to the concrete year series
`[2015..2020]` with current year `2020` (lookback index 0), every
hypothesis discharged. -/
theorem deltaComputations_lookback_witness :
    change5yrRankings [2015, 2016, 2017, 2018, 2019, 2020] (fun y => (y : ℚ)) 2020 =
      (fun y : ℤ => (y : ℚ)) 2020 - (fun y : ℤ => (y : ℚ)) 2015 ∧
    change5yrInsights [2015, 2016, 2017, 2018, 2019, 2020] (fun y => (y : ℚ)) 2020 =
      (fun y : ℤ => (y : ℚ)) 2020 - (fun y : ℤ => (y : ℚ)) 2015 ∧
    trendInsightChange [2015, 2016, 2017, 2018, 2019, 2020] (fun y => (y : ℚ)) 2020 =
      (fun y : ℤ => (y : ℚ)) 2020 - (fun y : ℤ => (y : ℚ)) 2015 :=
  (deltaComputations_lookback [2015, 2016, 2017, 2018, 2019, 2020]
      (fun y => (y : ℚ)) 2020 5 (by decide)).1 2015 (by norm_num) (by decide)

/-! ### Dynamic classifiers (C6, C7)

`getSurplusColor`, `getIncomeColor`, `getCOLColor` from
`src/unnamed/part_002` (lines 445-462, 464-482, 484-502): min/max over the
year's values, six equal-width bins, same palette; COL comparisons are
inverted.  For an empty `yearValues` the source's spread `Math.min(...)` /
`Math.max(...)` produce `Infinity`/`-Infinity`, every subsequent `<` or `>`
test compares against `NaN` and is false, so the final color is returned;
the embedding encodes that case as the explicit `[]` branch. -/

/-- `getSurplusColor` (src/unnamed/part_002 lines 445-462). -/
def getSurplusColor (yearValues : List ℚ) (surplus : ℚ) : String :=
  match yearValues with
  | [] => "#059669"
  | v :: vs =>
    let min := vs.foldl Min.min v
    let max := vs.foldl Max.max v
    let range := max - min
    let bin := range / 6
    if surplus < min + bin then "#dc2626"
    else if surplus < min + bin * 2 then "#f97316"
    else if surplus < min + bin * 3 then "#eab308"
    else if surplus < min + bin * 4 then "#84cc16"
    else if surplus < min + bin * 5 then "#22c55e"
    else "#059669"

/-- `getIncomeColor` (src/unnamed/part_002 lines 464-482): same dynamic
scale and palette as `getSurplusColor`. -/
def getIncomeColor (yearValues : List ℚ) (income : ℚ) : String :=
  match yearValues with
  | [] => "#059669"
  | v :: vs =>
    let min := vs.foldl Min.min v
    let max := vs.foldl Max.max v
    let range := max - min
    let bin := range / 6
    if income < min + bin then "#dc2626"
    else if income < min + bin * 2 then "#f97316"
    else if income < min + bin * 3 then "#eab308"
    else if income < min + bin * 4 then "#84cc16"
    else if income < min + bin * 5 then "#22c55e"
    else "#059669"

/-- `getCOLColor` (src/unnamed/part_002 lines 484-502): inverted scale,
high cost of living is red and low is green. -/
def getCOLColor (yearValues : List ℚ) (col : ℚ) : String :=
  match yearValues with
  | [] => "#059669"
  | v :: vs =>
    let min := vs.foldl Min.min v
    let max := vs.foldl Max.max v
    let range := max - min
    let bin := range / 6
    if col > max - bin then "#dc2626"
    else if col > max - bin * 2 then "#f97316"
    else if col > max - bin * 3 then "#eab308"
    else if col > max - bin * 4 then "#84cc16"
    else if col > max - bin * 5 then "#22c55e"
    else "#059669"

/-- The shared six-color palette, from worst (deep red) to best (emerald). -/
def mliPalette : List String :=
  ["#dc2626", "#f97316", "#eab308", "#84cc16", "#22c55e", "#059669"]

/-- Position of a color in the worst-to-best palette order. -/
def colorRank (c : String) : ℕ :=
  if c = "#dc2626" then 0
  else if c = "#f97316" then 1
  else if c = "#eab308" then 2
  else if c = "#84cc16" then 3
  else if c = "#22c55e" then 4
  else 5

/-- Unfolding equation for `getSurplusColor` on a nonempty value list. -/
theorem getSurplusColor_cons (v : ℚ) (vs : List ℚ) (w : ℚ) :
    getSurplusColor (v :: vs) w =
      (if w < vs.foldl Min.min v + (vs.foldl Max.max v - vs.foldl Min.min v) / 6 then "#dc2626"
       else if w < vs.foldl Min.min v + (vs.foldl Max.max v - vs.foldl Min.min v) / 6 * 2 then "#f97316"
       else if w < vs.foldl Min.min v + (vs.foldl Max.max v - vs.foldl Min.min v) / 6 * 3 then "#eab308"
       else if w < vs.foldl Min.min v + (vs.foldl Max.max v - vs.foldl Min.min v) / 6 * 4 then "#84cc16"
       else if w < vs.foldl Min.min v + (vs.foldl Max.max v - vs.foldl Min.min v) / 6 * 5 then "#22c55e"
       else "#059669") := rfl

/-- Unfolding equation for `getIncomeColor` on a nonempty value list. -/
theorem getIncomeColor_cons (v : ℚ) (vs : List ℚ) (w : ℚ) :
    getIncomeColor (v :: vs) w =
      (if w < vs.foldl Min.min v + (vs.foldl Max.max v - vs.foldl Min.min v) / 6 then "#dc2626"
       else if w < vs.foldl Min.min v + (vs.foldl Max.max v - vs.foldl Min.min v) / 6 * 2 then "#f97316"
       else if w < vs.foldl Min.min v + (vs.foldl Max.max v - vs.foldl Min.min v) / 6 * 3 then "#eab308"
       else if w < vs.foldl Min.min v + (vs.foldl Max.max v - vs.foldl Min.min v) / 6 * 4 then "#84cc16"
       else if w < vs.foldl Min.min v + (vs.foldl Max.max v - vs.foldl Min.min v) / 6 * 5 then "#22c55e"
       else "#059669") := rfl

/-- Unfolding equation for `getCOLColor` on a nonempty value list. -/
theorem getCOLColor_cons (v : ℚ) (vs : List ℚ) (w : ℚ) :
    getCOLColor (v :: vs) w =
      (if w > vs.foldl Max.max v - (vs.foldl Max.max v - vs.foldl Min.min v) / 6 then "#dc2626"
       else if w > vs.foldl Max.max v - (vs.foldl Max.max v - vs.foldl Min.min v) / 6 * 2 then "#f97316"
       else if w > vs.foldl Max.max v - (vs.foldl Max.max v - vs.foldl Min.min v) / 6 * 3 then "#eab308"
       else if w > vs.foldl Max.max v - (vs.foldl Max.max v - vs.foldl Min.min v) / 6 * 4 then "#84cc16"
       else if w > vs.foldl Max.max v - (vs.foldl Max.max v - vs.foldl Min.min v) / 6 * 5 then "#22c55e"
       else "#059669") := rfl

/-! ### C6 -/

theorem colorRank_c0 : colorRank "#dc2626" = 0 := rfl

theorem colorRank_c1 : colorRank "#f97316" = 1 := rfl

theorem colorRank_c2 : colorRank "#eab308" = 2 := rfl

theorem colorRank_c3 : colorRank "#84cc16" = 3 := rfl

theorem colorRank_c4 : colorRank "#22c55e" = 4 := rfl

theorem colorRank_c5 : colorRank "#059669" = 5 := rfl

/-- Monotonicity of a six-way threshold chain with ascending thresholds. -/
theorem colorRank_chain_mono (t1 t2 t3 t4 t5 v1 v2 : ℚ)
    (_h12 : t1 ≤ t2) (_h23 : t2 ≤ t3) (_h34 : t3 ≤ t4) (_h45 : t4 ≤ t5)
    (hv : v1 ≤ v2) :
    colorRank (if v1 < t1 then "#dc2626" else if v1 < t2 then "#f97316"
      else if v1 < t3 then "#eab308" else if v1 < t4 then "#84cc16"
      else if v1 < t5 then "#22c55e" else "#059669") ≤
    colorRank (if v2 < t1 then "#dc2626" else if v2 < t2 then "#f97316"
      else if v2 < t3 then "#eab308" else if v2 < t4 then "#84cc16"
      else if v2 < t5 then "#22c55e" else "#059669") := by
  split_ifs <;>
    first
      | (simp only [colorRank_c0, colorRank_c1, colorRank_c2, colorRank_c3,
          colorRank_c4, colorRank_c5]; omega)
      | linarith

/-- Monotonicity of the inverted six-way chain with descending thresholds:
a larger value gets an equal-or-worse (smaller-rank) color. -/
theorem colorRank_chain_inverted (t1 t2 t3 t4 t5 v1 v2 : ℚ)
    (_h12 : t2 ≤ t1) (_h23 : t3 ≤ t2) (_h34 : t4 ≤ t3) (_h45 : t5 ≤ t4)
    (hv : v1 ≤ v2) :
    colorRank (if v2 > t1 then "#dc2626" else if v2 > t2 then "#f97316"
      else if v2 > t3 then "#eab308" else if v2 > t4 then "#84cc16"
      else if v2 > t5 then "#22c55e" else "#059669") ≤
    colorRank (if v1 > t1 then "#dc2626" else if v1 > t2 then "#f97316"
      else if v1 > t3 then "#eab308" else if v1 > t4 then "#84cc16"
      else if v1 > t5 then "#22c55e" else "#059669") := by
  split_ifs <;>
    first
      | (simp only [colorRank_c0, colorRank_c1, colorRank_c2, colorRank_c3,
          colorRank_c4, colorRank_c5]; omega)
      | linarith

/-- A six-way threshold chain always lands in the palette. -/
theorem chain_mem_palette (t1 t2 t3 t4 t5 w : ℚ) :
    (if w < t1 then "#dc2626" else if w < t2 then "#f97316"
      else if w < t3 then "#eab308" else if w < t4 then "#84cc16"
      else if w < t5 then "#22c55e" else "#059669") ∈ mliPalette := by
  split_ifs <;> simp [mliPalette]

/-- The inverted six-way threshold chain always lands in the palette. -/
theorem chain_inv_mem_palette (t1 t2 t3 t4 t5 w : ℚ) :
    (if w > t1 then "#dc2626" else if w > t2 then "#f97316"
      else if w > t3 then "#eab308" else if w > t4 then "#84cc16"
      else if w > t5 then "#22c55e" else "#059669") ∈ mliPalette := by
  split_ifs <;> simp [mliPalette]

/-- C6: on a year's value set with `min < max`, the dynamic classifiers
assign exactly one bucket of the palette to every value, and the assignment
is monotone: for surplus and income a higher value never gets a worse
bucket than a lower value, while for cost of living the ordering is
inverted, so a higher cost never gets a better bucket than a lower cost. -/
theorem dynamicClassifiers_monotone (v : ℚ) (vs : List ℚ) (v1 v2 : ℚ)
    (hrange : vs.foldl Min.min v < vs.foldl Max.max v) (h12 : v1 ≤ v2) :
    (∀ w : ℚ, getSurplusColor (v :: vs) w ∈ mliPalette ∧
      getIncomeColor (v :: vs) w ∈ mliPalette ∧
      getCOLColor (v :: vs) w ∈ mliPalette) ∧
    colorRank (getSurplusColor (v :: vs) v1) ≤ colorRank (getSurplusColor (v :: vs) v2) ∧
    colorRank (getIncomeColor (v :: vs) v1) ≤ colorRank (getIncomeColor (v :: vs) v2) ∧
    colorRank (getCOLColor (v :: vs) v2) ≤ colorRank (getCOLColor (v :: vs) v1) := by
  have hbin : (0 : ℚ) < (vs.foldl Max.max v - vs.foldl Min.min v) / 6 := by
    have h : (0 : ℚ) < vs.foldl Max.max v - vs.foldl Min.min v := by linarith
    positivity
  refine ⟨?_, ?_, ?_, ?_⟩
  · intro w
    refine ⟨?_, ?_, ?_⟩
    · rw [getSurplusColor_cons]
      exact chain_mem_palette _ _ _ _ _ _
    · rw [getIncomeColor_cons]
      exact chain_mem_palette _ _ _ _ _ _
    · rw [getCOLColor_cons]
      exact chain_inv_mem_palette _ _ _ _ _ _
  · rw [getSurplusColor_cons v vs v1, getSurplusColor_cons v vs v2]
    apply colorRank_chain_mono <;> linarith
  · rw [getIncomeColor_cons v vs v1, getIncomeColor_cons v vs v2]
    apply colorRank_chain_mono <;> linarith
  · rw [getCOLColor_cons v vs v1, getCOLColor_cons v vs v2]
    apply colorRank_chain_inverted <;> linarith

/-- Witness for C6: the theorem applied to the concrete value set
`[0, 6]` (min 0, max 6, bin width 1) and values `1 ≤ 2`. -/
theorem dynamicClassifiers_monotone_witness :
    colorRank (getSurplusColor [0, 6] 1) ≤ colorRank (getSurplusColor [0, 6] 2) :=
  (dynamicClassifiers_monotone 0 [6] 1 2 (by norm_num [List.foldl]) (by norm_num)).2.1

/-! ### C7 -/

/-- Folding `min` over a constant list starting from the constant. -/
theorem foldl_min_const (c : ℚ) (vs : List ℚ) (hall : ∀ x ∈ vs, x = c)
    (a : ℚ) (ha : a = c) : vs.foldl Min.min a = c := by
  induction vs generalizing a with
  | nil => simpa using ha
  | cons b vs ih =>
    have hb : b = c := hall b (by simp)
    have hab : Min.min a b = c := by
      rw [ha, hb]
      exact min_self c
    exact ih (fun x hx => hall x (by simp [hx])) _ hab

/-- Folding `max` over a constant list starting from the constant. -/
theorem foldl_max_const (c : ℚ) (vs : List ℚ) (hall : ∀ x ∈ vs, x = c)
    (a : ℚ) (ha : a = c) : vs.foldl Max.max a = c := by
  induction vs generalizing a with
  | nil => simpa using ha
  | cons b vs ih =>
    have hb : b = c := hall b (by simp)
    have hab : Max.max a b = c := by
      rw [ha, hb]
      exact max_self c
    exact ih (fun x hx => hall x (by simp [hx])) _ hab

/-- C7: when the year's value set is empty or all its values are equal
(range 0, bin width 0), the dynamic classifiers still resolve every
queried value of the set to the single defined bucket `"#059669"` — the
same bucket in all such cases — with no undefined result (in the source,
the empty case runs through `Infinity`/`NaN` comparisons that are all
false, and the all-equal case through bin width `0`; division is by the
constant 6, never by the range). -/
theorem dynamicClassifiers_degenerate (c v : ℚ) (vs : List ℚ)
    (hall : ∀ x ∈ v :: vs, x = c) :
    (∀ w ∈ v :: vs,
      getSurplusColor (v :: vs) w = "#059669" ∧
      getIncomeColor (v :: vs) w = "#059669" ∧
      getCOLColor (v :: vs) w = "#059669") ∧
    (∀ w : ℚ, getSurplusColor [] w = "#059669" ∧
      getIncomeColor [] w = "#059669" ∧
      getCOLColor [] w = "#059669") := by
  have hv : v = c := hall v (by simp)
  have hmin : vs.foldl Min.min v = c :=
    foldl_min_const c vs (fun x hx => hall x (by simp [hx])) v hv
  have hmax : vs.foldl Max.max v = c :=
    foldl_max_const c vs (fun x hx => hall x (by simp [hx])) v hv
  have h0 : (c - c) / 6 = (0 : ℚ) := by ring
  constructor
  · intro w hw
    have hwc : w = c := hall w hw
    refine ⟨?_, ?_, ?_⟩
    · rw [getSurplusColor_cons, hmin, hmax, hwc, h0]
      norm_num
    · rw [getIncomeColor_cons, hmin, hmax, hwc, h0]
      norm_num
    · rw [getCOLColor_cons, hmin, hmax, hwc, h0]
      norm_num
  · intro w
    exact ⟨rfl, rfl, rfl⟩

/-- Witness for C7: the theorem applied to the concrete all-equal value
set `[3, 3]`, every hypothesis discharged. -/
theorem dynamicClassifiers_degenerate_witness :
    getSurplusColor [3, 3] 3 = "#059669" ∧
    getIncomeColor [3, 3] 3 = "#059669" ∧
    getCOLColor [3, 3] 3 = "#059669" :=
  (dynamicClassifiers_degenerate 3 3 [3] (by simp)).1 3 (by simp)

/-! ### Table filtering (C8)

`filterTable` (src/unnamed/part_002 lines 938-946; src/website/app.js
lines 661-669): each rendered row is kept visible exactly when the
lower-cased state-cell text contains the lower-cased search term as a
substring (JavaScript `String.includes`); rows are never reordered, only
included or hidden. -/

/-- JavaScript `toLowerCase`, modelled characterwise. -/
def toLowerChars (s : String) : List Char := s.toList.map Char.toLower

/-- Whether `sub` starts the given character list. -/
def leadsWith : List Char → List Char → Bool
  | [], _ => true
  | _ :: _, [] => false
  | a :: as, b :: bs => a == b && leadsWith as bs

/-- JavaScript `String.includes`: `sub` occurs contiguously in the list. -/
def occursIn : List Char → List Char → Bool
  | sub, [] => leadsWith sub []
  | sub, c :: s => leadsWith sub (c :: s) || occursIn sub s

/-- `filterTable`: keep the rows whose lower-cased state name contains the
lower-cased search term. -/
def filterTable (rows : List Entry) (searchTerm : String) : List Entry :=
  rows.filter (fun r => occursIn (toLowerChars searchTerm) (toLowerChars r.name))

theorem leadsWith_iff (sub s : List Char) :
    leadsWith sub s = true ↔ ∃ t, s = sub ++ t := by
  induction sub generalizing s with
  | nil =>
    constructor
    · intro _
      exact ⟨s, rfl⟩
    · intro _
      rfl
  | cons a as ih =>
    cases s with
    | nil =>
      constructor
      · intro h
        exact absurd h (by simp [leadsWith])
      · rintro ⟨t, ht⟩
        exact absurd ht (by simp)
    | cons b bs =>
      rw [show leadsWith (a :: as) (b :: bs) = (a == b && leadsWith as bs) from rfl,
        Bool.and_eq_true, beq_iff_eq, ih]
      constructor
      · rintro ⟨rfl, t, rfl⟩
        exact ⟨t, rfl⟩
      · rintro ⟨t, ht⟩
        injection ht with h1 h2
        exact ⟨h1.symm, t, h2⟩

theorem occursIn_iff (sub s : List Char) :
    occursIn sub s = true ↔ ∃ l₁ l₂, s = l₁ ++ sub ++ l₂ := by
  induction s with
  | nil =>
    rw [show occursIn sub [] = leadsWith sub [] from rfl, leadsWith_iff]
    constructor
    · rintro ⟨t, ht⟩
      obtain ⟨h1, h2⟩ := List.append_eq_nil.mp ht.symm
      exact ⟨[], [], by simp [h1]⟩
    · rintro ⟨l₁, l₂, hl⟩
      obtain ⟨h1, -⟩ := List.append_eq_nil.mp hl.symm
      obtain ⟨-, h3⟩ := List.append_eq_nil.mp h1
      exact ⟨[], by simp [h3]⟩
  | cons c s ih =>
    rw [show occursIn sub (c :: s) = (leadsWith sub (c :: s) || occursIn sub s) from rfl,
      Bool.or_eq_true, ih, leadsWith_iff]
    constructor
    · rintro (⟨t, ht⟩ | ⟨l₁, l₂, rfl⟩)
      · exact ⟨[], t, by simpa using ht⟩
      · exact ⟨c :: l₁, l₂, rfl⟩
    · rintro ⟨l₁, l₂, hl⟩
      cases l₁ with
      | nil =>
        left
        exact ⟨l₂, by simpa using hl⟩
      | cons d l₁ =>
        right
        injection hl with h1 h2
        exact ⟨l₁, l₂, h2⟩

/-- C8: filtering with the empty string returns the full row set
unchanged; filtering is idempotent; a row is kept exactly when it is an
input row whose lower-cased state name contains the lower-cased term as a
substring (the match looks at the state name only); and the kept rows
appear in their original relative order (the result is a sublist). -/
theorem filterTable_props (rows : List Entry) (t : String) :
    filterTable rows "" = rows ∧
    filterTable (filterTable rows t) t = filterTable rows t ∧
    (∀ r, r ∈ filterTable rows t ↔
      r ∈ rows ∧ ∃ l₁ l₂, toLowerChars r.name = l₁ ++ toLowerChars t ++ l₂) ∧
    (filterTable rows t).Sublist rows := by
  refine ⟨?_, ?_, ?_, ?_⟩
  · unfold filterTable
    have hempty : toLowerChars "" = [] := rfl
    rw [hempty]
    have hall : ∀ r : Entry, occursIn [] (toLowerChars r.name) = true := by
      intro r
      cases toLowerChars r.name with
      | nil => rfl
      | cons c s => rfl
    exact List.filter_eq_self.mpr (fun a _ => hall a)
  · unfold filterTable
    rw [List.filter_filter]
    exact List.filter_congr (fun a _ => by rw [Bool.and_self])
  · intro r
    unfold filterTable
    rw [List.mem_filter, occursIn_iff]
  · unfold filterTable
    exact List.filter_sublist _

/-! ### Startup error handling (C9) -/

/-- Which parts of the page a startup run produces. -/
structure RenderOutcome where
  errorShown : Bool
  mainViews : Bool
  marketViews : Bool
deriving DecidableEq, Repr

/-- The `init` control flow of src/unnamed/part_002 (lines 20-39 with
`loadData` lines 41-57, `loadMarketData` lines 1006-1015, `showError`
lines 1176-1184), over the outcomes of the two fetches.  `loadData`
rethrows on failure, so `init`'s catch replaces the main content with the
static error message and nothing renders.  `loadMarketData` catches its
own failure and continues ("Non-critical, continue without this data"),
after which `createSavingsTimeline` and `populateSavingsDistribution`
return early for the missing `marketData`: the main views render and the
market-data views are silently skipped. -/
def init (mliLoadOk marketLoadOk : Bool) : RenderOutcome :=
  if mliLoadOk then
    { errorShown := false, mainViews := true, marketViews := marketLoadOk }
  else
    { errorShown := true, mainViews := false, marketViews := false }

/-- Counterexample to C9: a run whose primary data load succeeds but whose
market-divergence load fails renders the main views while silently
omitting the market views, and shows no error — a partial-success path. -/
theorem init_partial_success :
    (init true false).errorShown = false ∧
    (init true false).mainViews = true ∧
    (init true false).marketViews = false :=
  ⟨rfl, rfl, rfl⟩

/-- C9 amended: failure of the primary `mli_data.json` load replaces the
main content with the static error message and renders nothing; when the
primary load succeeds, the main views always render and only the
market-divergence views are conditional on the secondary load, which is
silently skipped on failure rather than surfacing an error. -/
theorem init_error_paths (mliLoadOk marketLoadOk : Bool) :
    (mliLoadOk = false → init mliLoadOk marketLoadOk =
      { errorShown := true, mainViews := false, marketViews := false }) ∧
    (mliLoadOk = true →
      (init mliLoadOk marketLoadOk).errorShown = false ∧
      (init mliLoadOk marketLoadOk).mainViews = true ∧
      (init mliLoadOk marketLoadOk).marketViews = marketLoadOk) := by
  constructor
  · rintro rfl
    rfl
  · rintro rfl
    exact ⟨rfl, rfl, rfl⟩

/-- Witness for C9's amended theorem: applied at the concrete outcome pair
(primary load fails), the hypothesis discharged. -/
theorem init_error_paths_witness :
    init false true =
      { errorShown := true, mainViews := false, marketViews := false } :=
  (init_error_paths false true).1 rfl

/-! ### Stats banner (C10) -/

/-- The three counts of `updateStatsBanner` (src/unnamed/part_002 lines
165-183; src/website/app.js lines 92-110): surplus (`mli > 1.05`),
break-even (`0.95 <= mli <= 1.05`), deficit (`mli < 0.95`). -/
def updateStatsBannerCounts (mlis : List ℚ) : ℕ × ℕ × ℕ :=
  ((mlis.filter (fun m => decide (m > 1.05))).length,
   (mlis.filter (fun m => decide (m ≥ 0.95) && decide (m ≤ 1.05))).length,
   (mlis.filter (fun m => decide (m < 0.95))).length)

/-- C10: the stats-banner bands partition the states — every MLI value
falls in exactly one of the surplus, break-even, deficit bands, and the
three counts sum to the total number of states. -/
theorem statsBanner_partition (mlis : List ℚ) :
    ((updateStatsBannerCounts mlis).1 + (updateStatsBannerCounts mlis).2.1 +
      (updateStatsBannerCounts mlis).2.2 = mlis.length) ∧
    (∀ m : ℚ,
      (m > 1.05 ∧ ¬(0.95 ≤ m ∧ m ≤ 1.05) ∧ ¬(m < 0.95)) ∨
      (¬(m > 1.05) ∧ (0.95 ≤ m ∧ m ≤ 1.05) ∧ ¬(m < 0.95)) ∨
      (¬(m > 1.05) ∧ ¬(0.95 ≤ m ∧ m ≤ 1.05) ∧ m < 0.95)) := by
  constructor
  · induction mlis with
    | nil => rfl
    | cons a l ih =>
      simp only [updateStatsBannerCounts] at ih ⊢
      by_cases hr : a < (0.95 : ℚ)
      · have hp : ¬((1.05 : ℚ) < a) := by linarith
        have hq1 : ¬((0.95 : ℚ) ≤ a) := by linarith
        simp [List.filter_cons, hp, hq1, hr] at ih ⊢
        omega
      · by_cases hp : (1.05 : ℚ) < a
        · have hq2 : ¬(a ≤ (1.05 : ℚ)) := by linarith
          simp [List.filter_cons, hp, hq2, hr] at ih ⊢
          omega
        · have hq1 : (0.95 : ℚ) ≤ a := by linarith
          have hq2 : a ≤ (1.05 : ℚ) := by linarith
          simp [List.filter_cons, hp, hq1, hq2, hr] at ih ⊢
          omega
  · intro m
    by_cases hr : m < (0.95 : ℚ)
    · right
      right
      refine ⟨by linarith, ?_, hr⟩
      rintro ⟨h, -⟩
      linarith
    · by_cases hp : (1.05 : ℚ) < m
      · left
        refine ⟨hp, ?_, by linarith⟩
        rintro ⟨-, h⟩
        linarith
      · right
        left
        exact ⟨hp, ⟨by linarith, by linarith⟩, hr⟩

/-- Witness for C10: the theorem applied to the concrete MLI list
`[1.2, 1, 0.8]` (counts 1, 1, 1 summing to 3). -/
theorem statsBanner_partition_witness :
    (updateStatsBannerCounts [1.2, 1, 0.8]).1 +
      (updateStatsBannerCounts [1.2, 1, 0.8]).2.1 +
      (updateStatsBannerCounts [1.2, 1, 0.8]).2.2 = 3 :=
  (statsBanner_partition [1.2, 1, 0.8]).1

end MLI
